import Mathlib

/-!
# tosi: ISO transport service over TCP (RFC 1006)

A shallow embedding of `tosi_api.go`: `TOSIConn.Write`, `TOSIConn.Read`,
`handleDT`, `handleDTError`, the deadline setters, `DialTOSI` and
`TOSIListener.Accept`.

Conventions of the embedding.

* A byte is a `Nat`; a Go `[]byte` is a `List Nat`, and where the source tests
  a slice against `nil` it is an `Option (List Nat)` with `none` for `nil`.
* A Go `error` is an `Option GoErr`, `none` for `nil`.
* `uint64`, `uint16` and `uint8` arithmetic is arithmetic on `Nat` reduced
  modulo `2^64`, `2^16`, `2^8`.
* A run-time panic (slice bounds out of range, integer division by zero) is
  the outcome `Exec.panic`.
* The TCP connection is an explicit state `TCP`: it holds what the coming
  `Read` calls will deliver, how the coming `Write` calls will end, a log of
  every `Write` call, the two TCP deadlines and whether it was closed.
* The TPKT/TPDU codec (`tpkt`, `dt`, `er`, `isTPKT`, ...) lives in files of the
  package other than `tosi_api.go`; the functions of it that the data path
  uses are the fields of the parameter `Codec`, those that only the handshake
  uses are the fields of the parameter `HsCodec`.
-/

namespace Tosi

/-! ## Errors and outcomes -/

/-- The `error` values the embedded functions can return. -/
inductive GoErr where
  /-- `errors.New("invalid input")` -/
  | invalidInput
  /-- `errors.New("invalid network")` -/
  | invalidNetwork
  /-- `errors.New("received an invalid CC")` -/
  | invalidCC
  /-- `errors.New("unknown reply from server")` -/
  | unknownReply
  /-- `errors.New("received an invalid CR")` -/
  | invalidCR
  /-- `errors.New("received an invalid DT")` -/
  | invalidDT
  /-- `errors.New("received an invalid TPDU")` -/
  | invalidTPDU
  /-- The error of `getERerror`, with the reject cause. -/
  | erError (cause : Nat)
  /-- The error of `getDRerror`, with the disconnect reason. -/
  | drError (reason : Nat)
  /-- An error of the TCP layer (timeout, reset, ...), by a code. -/
  | tcpError (code : Nat)
  /-- The TCP layer's end of stream. -/
  | eof
  /-- The TCP layer's "use of closed network connection". -/
  | closedConn
  deriving DecidableEq

/-- The outcome of running a Go function: it returns, or it panics, or the
embedding's loop counter ran out (which the theorems exclude). -/
inductive Exec (α : Type) where
  | ret (a : α)
  | panic
  | outOfFuel
  deriving DecidableEq

/-! ## The TCP connection -/

/-- What one coming `tcp.Read` call finds: a segment of bytes, or a failure. -/
inductive RxEvent where
  | data (bs : List Nat)
  | fail (e : GoErr)
  deriving DecidableEq

/-- One call of `tcp.Write`: the bytes handed over, the TCP write deadline in
force during the call, and what the call returned. -/
structure WCall where
  bytes : List Nat
  deadline : Nat
  n : Nat
  err : Option GoErr
  deriving DecidableEq

/-- The state of a `net.TCPConn`. `rx` is what the coming `Read` calls deliver;
`wr` is how the coming `Write` calls end (`none`, and every call past the end
of the list: the whole buffer is written; `some (k, e)`: `k` bytes are written
and the error `e` is returned); `wlog` is the log of the `Write` calls made so
far; `rdl` and `wdl` are the read and write deadlines (`0` for none). -/
structure TCP where
  rx : List RxEvent
  wr : List (Option (Nat × GoErr))
  wlog : List WCall
  rdl : Nat
  wdl : Nat
  closed : Bool
  localIP : List Nat
  remoteIP : List Nat
  deriving DecidableEq

/-- Go's `copy(dst, src)`: the first `min (len dst) (len src)` bytes of `dst`
are overwritten with those of `src`. -/
def copy (dst src : List Nat) : List Nat :=
  src.take dst.length ++ dst.drop src.length

/-- Go's `make([]byte, n)`. -/
def make (n : Nat) : List Nat := List.replicate n 0

/-- Go's `b[lo:hi]` on a slice whose capacity is its length: `none` when the
bounds are out of range (a panic). -/
def slice (b : List Nat) (lo hi : Nat) : Option (List Nat) :=
  if lo ≤ hi ∧ hi ≤ b.length then some ((b.take hi).drop lo) else none

namespace TCP

/-- The call `tcp.Read(buf)`: returns the buffer after the call, `n`, `err` and
the connection after the call. -/
def Read (t : TCP) (buf : List Nat) : List Nat × Nat × Option GoErr × TCP :=
  if t.closed then (buf, 0, some GoErr.closedConn, t)
  else if buf.length = 0 then (buf, 0, none, t)
  else
    match t.rx with
    | [] => (buf, 0, some GoErr.eof, t)
    | RxEvent.fail e :: rest => (buf, 0, some e, { t with rx := rest })
    | RxEvent.data seg :: rest =>
      let n := min buf.length seg.length
      let left := seg.drop n
      (copy buf seg, n, none,
        { t with rx := if left = [] then rest else RxEvent.data left :: rest })

/-- The call `tcp.Write(data)`: returns `n`, `err` and the connection after
the call. Every call is logged with the write deadline in force. -/
def Write (t : TCP) (data : List Nat) : Nat × Option GoErr × TCP :=
  if t.closed then
    (0, some GoErr.closedConn,
      { t with wlog := t.wlog ++ [⟨data, t.wdl, 0, some GoErr.closedConn⟩] })
  else
    match t.wr with
    | [] => (data.length, none,
        { t with wlog := t.wlog ++ [⟨data, t.wdl, data.length, none⟩] })
    | none :: rest => (data.length, none,
        { t with wr := rest, wlog := t.wlog ++ [⟨data, t.wdl, data.length, none⟩] })
    | some (k, e) :: rest => (min k data.length, some e,
        { t with wr := rest,
                 wlog := t.wlog ++ [⟨data, t.wdl, min k data.length, some e⟩] })

/-- The call `tcp.Close()`. -/
def Close (t : TCP) : Option GoErr × TCP :=
  if t.closed then (some GoErr.closedConn, t) else (none, { t with closed := true })

/-- The call `tcp.SetReadDeadline(d)`. -/
def SetReadDeadline (t : TCP) (d : Nat) : Option GoErr × TCP :=
  if t.closed then (some GoErr.closedConn, t) else (none, { t with rdl := d })

/-- The call `tcp.SetWriteDeadline(d)`. -/
def SetWriteDeadline (t : TCP) (d : Nat) : Option GoErr × TCP :=
  if t.closed then (some GoErr.closedConn, t) else (none, { t with wdl := d })

/-- The call `tcp.SetDeadline(d)`. -/
def SetDeadline (t : TCP) (d : Nat) : Option GoErr × TCP :=
  if t.closed then (some GoErr.closedConn, t) else (none, { t with rdl := d, wdl := d })

/-- Every coming `Write` call succeeds and reports the full length. -/
def writesSucceed (t : TCP) : Prop :=
  t.closed = false ∧ ∀ o ∈ t.wr, o = none

end TCP

/-! ## The codec, a parameter -/

/-- Modelled from the spec: the constant `tpktHlen`, declared outside
`tosi_api.go`; the TPKT header is 4 bytes. -/
def tpktHlen : Nat := 4

/-- Modelled from the spec: the constant `dtMinLen`, declared outside
`tosi_api.go`; `dt_header_len = 3`. -/
def dtMinLen : Nat := 3

/-- Modelled from the spec: the constant `erParamVal`, declared outside
`tosi_api.go`; the reject cause "invalid parameter value" is `0x03`. -/
def erParamVal : Nat := 3

/-- The codec functions that `Read`, `Write`, `handleDT` and `handleDTError`
call; they are defined outside `tosi_api.go`. -/
structure Codec where
  /-- `tpkt(tpdu)`: wrap a TPDU in a TPKT. -/
  tpkt : List Nat → List Nat
  /-- `dt(userData)`: build a DT. -/
  dt : List Nat → List Nat
  /-- `er(dstRef, cause, tpdu)`: build an ER. -/
  er : List Nat → Nat → List Nat → List Nat
  /-- `isTPKT(buf)`: is it a TPKT header, and the length it announces (`uint16`). -/
  isTPKT : List Nat → Bool × Nat
  /-- `isDT(buf)`: is it a DT, and an index (`uint8`). -/
  isDT : List Nat → Bool × Nat
  /-- `isER(buf)`. -/
  isER : List Nat → Bool × Nat
  /-- `isDR(buf)`. -/
  isDR : List Nat → Bool × Nat
  /-- `validateDt(tpdu)`: is the DT valid, and the bytes to echo if not. -/
  validateDt : List Nat → Bool × List Nat
  /-- `getERerror(buf)`. -/
  getERerror : List Nat → Option GoErr
  /-- `getDRerror(buf)`. -/
  getDRerror : List Nat → Option GoErr

/-! ## The connection -/

/-- `TOSIAddr`. -/
structure TOSIAddr where
  IP : List Nat
  Tsel : Option (List Nat)
  deriving DecidableEq

/-- `TOSIConn`. -/
structure TOSIConn where
  tcpConn : TCP
  laddr : TOSIAddr
  raddr : TOSIAddr
  maxTpduSize : Nat
  srcRef : List Nat
  dstRef : List Nat
  readBuf : Option (List Nat)
  readDeadline : Nat
  writeDeadline : Nat
  deriving DecidableEq

/-! ## Write -/

/-- One call `dt(b[start:end])` made by `Write`: the bounds and the slice. -/
structure DTCall where
  start : Nat
  stop : Nat
  payload : List Nat
  deriving DecidableEq

/-- What `Write` returns (`n`, `err`), the connection afterwards, and the
calls of `dt` it made, in order. -/
structure WriteRes where
  n : Nat
  err : Option GoErr
  conn : TOSIConn
  dts : List DTCall
  deriving DecidableEq

/-- The loop `for i = 0; i < numWrites; i++ { ... }` of `Write`, from the
state `(i, n)`, with the connection `c` and the `dt` calls made so far. -/
def writeLoop (cdc : Codec) (b : List Nat) (maxSduSize bufLen numWrites : Nat) :
    Nat → Nat → Nat → TOSIConn → List DTCall → Exec WriteRes
  | 0, _, _, _, _ => Exec.outOfFuel
  | fuel + 1, i, n, c, dts =>
    if i < numWrites then
      let start := (maxSduSize * i) % 2 ^ 64
      let stop := (maxSduSize * (i + 1)) % 2 ^ 64
      let stop := if stop > bufLen then bufLen else stop
      match slice b start stop with
      | none => Exec.panic
      | some p =>
        let (nPart, err, tcp) := c.tcpConn.Write (cdc.tpkt (cdc.dt p))
        let n := n + nPart
        let c := { c with tcpConn := tcp }
        let dts := dts ++ [⟨start, stop, p⟩]
        if err ≠ none then Exec.ret ⟨n, err, c, dts⟩
        else writeLoop cdc b maxSduSize bufLen numWrites fuel ((i + 1) % 2 ^ 64) n c dts
    else Exec.ret ⟨n, none, c, dts⟩

/-- `TOSIConn.Write`. -/
def TOSIConn.Write (cdc : Codec) (c : TOSIConn) (b : Option (List Nat)) : Exec WriteRes :=
  match b with
  | none => Exec.ret ⟨0, some GoErr.invalidInput, c, []⟩
  | some b =>
    let maxSduSize := (c.maxTpduSize + 2 ^ 64 - dtMinLen) % 2 ^ 64
    let bufLen := b.length % 2 ^ 64
    if bufLen > maxSduSize then
      if maxSduSize = 0 then Exec.panic
      else
        let numWrites := (bufLen / maxSduSize + 1) % 2 ^ 64
        writeLoop cdc b maxSduSize bufLen numWrites (numWrites + 1) 0 0 c []
    else
      let (n, err, tcp) := c.tcpConn.Write (cdc.tpkt (cdc.dt b))
      Exec.ret ⟨n, err, { c with tcpConn := tcp }, [⟨0, b.length, b⟩]⟩

/-! ## Read -/

/-- What `Read` returns (`n`, `err`), the caller's buffer after the call and
the connection after the call. -/
structure ReadRes where
  n : Nat
  err : Option GoErr
  b : List Nat
  conn : TOSIConn
  deriving DecidableEq

/-- `TOSIConn.Close`: all it does is closing the TCP connection. -/
def TOSIConn.Close (c : TOSIConn) : Option GoErr × TOSIConn :=
  let (err, tcp) := c.tcpConn.Close
  (err, { c with tcpConn := tcp })

/-- `handleDT`: parse a DT, handling errors and buffering issues. -/
def handleDT (cdc : Codec) (c : TOSIConn) (b tpdu : List Nat) : Exec ReadRes :=
  let (valid, erBuf) := cdc.validateDt tpdu
  if !valid then
    let reply := cdc.tpkt (cdc.er c.dstRef erParamVal erBuf)
    let tcp := (c.tcpConn.SetWriteDeadline c.readDeadline).2
    let tcp := (tcp.Write reply).2.2
    let tcp := (tcp.SetWriteDeadline c.writeDeadline).2
    Exec.ret ⟨0, some GoErr.invalidDT, b, { c with tcpConn := tcp }⟩
  else
    let sduLen : Int := (tpdu.length : Int) - (dtMinLen : Int)
    match slice tpdu dtMinLen tpdu.length with
    | none => Exec.panic
    | some sdu =>
      let b1 := copy b sdu
      if (b.length : Int) < sduLen then
        let uncopiedLen : Int := sduLen - (b.length : Int)
        let uncopiedIdx := dtMinLen + b.length
        match slice tpdu uncopiedIdx tpdu.length with
        | none => Exec.panic
        | some rest =>
          let readBuf := copy (make uncopiedLen.toNat) rest
          Exec.ret ⟨b.length, none, b1, { c with readBuf := some readBuf }⟩
      else
        Exec.ret ⟨sduLen.toNat, none, b1, { c with readBuf := none }⟩

/-- `handleDTError`: handle a TPDU which was expected to be a DT, but is not. -/
def handleDTError (cdc : Codec) (c : TOSIConn) (tpdu : List Nat) (errIdx : Nat) :
    Exec (Option GoErr × TOSIConn) :=
  let err : Option GoErr := none
  let isER := (cdc.isER tpdu).1
  let err := if isER then cdc.getERerror tpdu else err
  let isDR := (cdc.isDR tpdu).1
  let err := if isDR then cdc.getDRerror tpdu else err
  if isDR || isER then
    Exec.ret (err, c.Close.2)
  else
    match slice tpdu 0 errIdx with
    | none => Exec.panic
    | some bad =>
      let reply := cdc.tpkt (cdc.er c.dstRef erParamVal bad)
      let tcp := (c.tcpConn.SetWriteDeadline c.readDeadline).2
      let tcp := (tcp.Write reply).2.2
      let tcp := (tcp.SetWriteDeadline c.writeDeadline).2
      Exec.ret (some GoErr.invalidTPDU, { c with tcpConn := tcp })

/-- `TOSIConn.Read`. -/
def TOSIConn.Read (cdc : Codec) (c : TOSIConn) (b : Option (List Nat)) : Exec ReadRes :=
  match b with
  | none => Exec.ret ⟨0, some GoErr.invalidInput, [], c⟩
  | some b =>
    match c.readBuf with
    | some readBuf =>
      let b1 := copy b readBuf
      if b.length < readBuf.length then
        Exec.ret ⟨b.length, none, b1, { c with readBuf := some (readBuf.drop b.length) }⟩
      else
        Exec.ret ⟨readBuf.length, none, b1, { c with readBuf := none }⟩
    | none =>
      let (buf, _, err, tcp) := c.tcpConn.Read (make tpktHlen)
      let c := { c with tcpConn := tcp }
      let (isTpkt, tlen) := cdc.isTPKT buf
      if isTpkt && err == none then
        let (buf, _, err, tcp) := c.tcpConn.Read (make ((tlen + 2 ^ 16 - tpktHlen) % 2 ^ 16))
        let c := { c with tcpConn := tcp }
        if err ≠ none then Exec.ret ⟨0, err, b, c⟩
        else
          let (isDT, idx) := cdc.isDT buf
          if isDT then handleDT cdc c b buf
          else
            match handleDTError cdc c buf idx with
            | Exec.ret (err, c) => Exec.ret ⟨0, err, b, c⟩
            | Exec.panic => Exec.panic
            | Exec.outOfFuel => Exec.outOfFuel
      else Exec.ret ⟨0, err, b, c⟩

/-! ## Deadlines -/

/-- `TOSIConn.SetDeadline`. -/
def TOSIConn.SetDeadline (c : TOSIConn) (t : Nat) : Option GoErr × TOSIConn :=
  let c := { c with readDeadline := t }
  let c := { c with writeDeadline := t }
  let (err, tcp) := c.tcpConn.SetDeadline t
  (err, { c with tcpConn := tcp })

/-- `TOSIConn.SetReadDeadline`. -/
def TOSIConn.SetReadDeadline (c : TOSIConn) (t : Nat) : Option GoErr × TOSIConn :=
  let c := { c with readDeadline := t }
  let (err, tcp) := c.tcpConn.SetReadDeadline t
  (err, { c with tcpConn := tcp })

/-- `TOSIConn.SetWriteDeadline`. -/
def TOSIConn.SetWriteDeadline (c : TOSIConn) (t : Nat) : Option GoErr × TOSIConn :=
  let c := { c with writeDeadline := t }
  let (err, tcp) := c.tcpConn.SetWriteDeadline t
  (err, { c with tcpConn := tcp })

/-! ## The handshake -/

/-- The struct `connVars`, declared outside `tosi_api.go`: the fields that
`DialTOSI` and `Accept` touch. Its zero value is `ConnVars.zero`. -/
structure ConnVars where
  srcRef : List Nat
  dstRef : List Nat
  locTsel : Option (List Nat)
  remTsel : Option (List Nat)
  tpduSize : Option (List Nat)
  prefTpduSize : Option (List Nat)
  deriving DecidableEq

/-- The zero value `var cv connVars`. -/
def ConnVars.zero : ConnVars := ⟨[0, 0], [0, 0], none, none, none, none⟩

/-- The codec functions that only `DialTOSI` and `Accept` call; they are
defined outside `tosi_api.go`. -/
structure HsCodec where
  /-- `cr(cv)`: build a CR. -/
  cr : ConnVars → List Nat
  /-- `cc(cv)`: build a CC. -/
  cc : ConnVars → List Nat
  /-- `isCC(buf)`. -/
  isCC : List Nat → Bool × Nat
  /-- `isCR(buf)`. -/
  isCR : List Nat → Bool × Nat
  /-- `getConnVars(buf)`. -/
  getConnVars : List Nat → ConnVars
  /-- `validateCc(buf, cv, repCv)`. -/
  validateCc : List Nat → ConnVars → ConnVars → Bool × List Nat
  /-- `validateCr(buf, tsel)`. -/
  validateCr : List Nat → Option (List Nat) → Bool × List Nat
  /-- `getMaxTpduSize(cv)`: the size and whether no preference was given. -/
  getMaxTpduSize : ConnVars → Nat × Bool

/-- `tosiToTCPnet`: convert a tosi net to a TCP net. -/
def tosiToTCPnet (tosi : String) : String :=
  if tosi = "tosi" then "tcp"
  else if tosi = "tosi4" then "tcp4"
  else if tosi = "tosi6" then "tcp6"
  else ""

/-- What `DialTOSI` and `Accept` return (the connection, `nil` being `none`,
and `err`), and the TCP connection as they leave it, when one was opened. -/
structure HsRes where
  conn : Option TOSIConn
  err : Option GoErr
  tcp : Option TCP
  deriving DecidableEq

/-- `DialTOSI`. The outcome of `net.DialTCP` is the argument `dialTCP`. -/
def DialTOSI (cdc : Codec) (hs : HsCodec) (dialTCP : Except GoErr TCP)
    (tnet : String) (laddr : Option TOSIAddr) (raddr : TOSIAddr) : Exec HsRes :=
  let TCPnet := tosiToTCPnet tnet
  if TCPnet = "" then Exec.ret ⟨none, some GoErr.invalidNetwork, none⟩
  else
    match dialTCP with
    | Except.error e => Exec.ret ⟨none, some e, none⟩
    | Except.ok tcp =>
      let cv := ConnVars.zero
      let cv := { cv with srcRef := [0x01, 0x01] }
      let cv := match laddr with
        | some l => { cv with locTsel := l.Tsel }
        | none => cv
      let cv := { cv with remTsel := raddr.Tsel }
      let (_, err, tcp) := tcp.Write (cdc.tpkt (hs.cr cv))
      if err ≠ none then Exec.ret ⟨none, err, some tcp⟩
      else
        let (buf, _, err, tcp) := tcp.Read (make tpktHlen)
        let (isTpkt, tlen) := cdc.isTPKT buf
        if isTpkt && err == none then
          let (buf, _, err, tcp) := tcp.Read (make ((tlen + 2 ^ 16 - tpktHlen) % 2 ^ 16))
          let (isCC, tlen) := hs.isCC buf
          if isCC && err == none then
            let repCv := hs.getConnVars buf
            let (valid, erBuf) := hs.validateCc buf cv repCv
            if !valid then
              let reply := cdc.tpkt (cdc.er cv.srcRef erParamVal erBuf)
              let tcp := (tcp.Write reply).2.2
              let tcp := tcp.Close.2
              Exec.ret ⟨none, some GoErr.invalidCC, some tcp⟩
            else
              let laddr := match laddr with
                | some l => l
                | none => ⟨tcp.localIP, none⟩
              let maxTpduSize := (hs.getMaxTpduSize cv).1
              let (ccSize, noPref) := hs.getMaxTpduSize repCv
              let maxTpduSize := if !noPref then ccSize else maxTpduSize
              Exec.ret ⟨some ⟨tcp, laddr, raddr, maxTpduSize, cv.srcRef, repCv.srcRef,
                none, 0, 0⟩, none, some tcp⟩
          else
            let isER := (cdc.isER buf).1
            let err := if isER then cdc.getERerror buf else err
            let isDR := (cdc.isDR buf).1
            let err := if isDR then cdc.getDRerror buf else err
            if !isDR && !isER && err == none then
              match slice buf 0 tlen with
              | none => Exec.panic
              | some bad =>
                let reply := cdc.tpkt (cdc.er cv.srcRef erParamVal bad)
                let tcp := (tcp.Write reply).2.2
                let err := some GoErr.unknownReply
                let tcp := tcp.Close.2
                Exec.ret ⟨none, err, some tcp⟩
            else
              let tcp := tcp.Close.2
              Exec.ret ⟨none, err, some tcp⟩
        else
          let tcp := tcp.Close.2
          Exec.ret ⟨none, err, some tcp⟩

/-- `TOSIListener`: the address; the TCP listener is outside the embedding. -/
structure TOSIListener where
  addr : TOSIAddr
  deriving DecidableEq

/-- `TOSIListener.Accept`. The outcome of `l.tcpListener.AcceptTCP()` is the
argument `acceptTCP`. -/
def TOSIListener.Accept (cdc : Codec) (hs : HsCodec) (l : TOSIListener)
    (acceptTCP : Except GoErr TCP) : Exec HsRes :=
  match acceptTCP with
  | Except.error e => Exec.ret ⟨none, some e, none⟩
  | Except.ok tcp =>
    let (buf, _, err, tcp) := tcp.Read (make tpktHlen)
    let (isTpkt, tlen) := cdc.isTPKT buf
    if isTpkt && err == none then
      let (buf, _, err, tcp) := tcp.Read (make ((tlen + 2 ^ 16 - tpktHlen) % 2 ^ 16))
      let (isCR, tlen) := hs.isCR buf
      if isCR && err == none then
        let cv := hs.getConnVars buf
        let repCv := ConnVars.zero
        let (valid, erBuf) := hs.validateCr buf l.addr.Tsel
        let repCv : ConnVars := if valid then
            { repCv with locTsel := cv.locTsel, remTsel := l.addr.Tsel,
                         tpduSize := cv.tpduSize, prefTpduSize := cv.prefTpduSize,
                         srcRef := [0x02, 0x02], dstRef := cv.srcRef }
          else repCv
        let reply := if valid then cdc.tpkt (hs.cc repCv)
          else cdc.tpkt (cdc.er cv.srcRef erParamVal erBuf)
        let (_, err, tcp) := tcp.Write reply
        if valid && err == none then
          let raddr : TOSIAddr := ⟨tcp.remoteIP, cv.locTsel⟩
          let maxTpduSize := (hs.getMaxTpduSize cv).1
          Exec.ret ⟨some ⟨tcp, l.addr, raddr, maxTpduSize, repCv.srcRef, cv.srcRef,
            none, 0, 0⟩, none, some tcp⟩
        else
          let tcp := tcp.Close.2
          let err := if err == none then some GoErr.invalidCR else err
          Exec.ret ⟨none, err, some tcp⟩
      else
        if err == none then
          match slice buf 0 tlen with
          | none => Exec.panic
          | some bad =>
            let reply := cdc.tpkt (cdc.er [0x00, 0x00] erParamVal bad)
            let (_, err, tcp) := tcp.Write reply
            let tcp := tcp.Close.2
            Exec.ret ⟨none, err, some tcp⟩
        else
          let tcp := tcp.Close.2
          Exec.ret ⟨none, err, some tcp⟩
    else
      let tcp := tcp.Close.2
      Exec.ret ⟨none, err, some tcp⟩

/-! ## A codec after the spec

The theorems below hold for every codec. Where one is needed to run the code
on concrete bytes, it is this one. -/

/-- Modelled from the spec: `tpkt`, defined outside `tosi_api.go`. "Every TPDU
is prefixed with a 4-byte TPKT header: version=3, reserved=0, two-byte
big-endian total length (including the header)." -/
def specTpkt (tpdu : List Nat) : List Nat :=
  [3, 0, (tpdu.length + 4) / 256 % 256, (tpdu.length + 4) % 256] ++ tpdu

/-- Modelled from the spec: `isTPKT`, defined outside `tosi_api.go`. "Values
with version ≠ 3 or length < 7 are rejected as non-TPKT." -/
def specIsTPKT (buf : List Nat) : Bool × Nat :=
  let tlen := buf.getD 2 0 * 256 + buf.getD 3 0
  if buf.length = 4 ∧ buf.getD 0 0 = 3 ∧ 7 ≤ tlen then (true, tlen) else (false, 0)

/-- Modelled from the spec: `dt`, defined outside `tosi_api.go`. A DT is the
length indicator (2), the code byte (upper nibble 0xF), the NR/EOT byte (the
high bit is the End-of-TSDU flag, set here as for a single DT) and the user
data. -/
def specDt (userData : List Nat) : List Nat :=
  [2, 0xF0, 0x80] ++ userData

/-- Modelled from the spec: `er`, defined outside `tosi_api.go`. An ER is the
length indicator, the code byte (upper nibble 0x7), the two-byte dst-ref, the
cause, and the offending bytes as an invalid-TPDU parameter (code 0xC4). -/
def specEr (dstRef : List Nat) (cause : Nat) (bad : List Nat) : List Nat :=
  [dstRef.length + 4 + bad.length, 0x70] ++ dstRef ++ [cause, 0xC4, bad.length] ++ bad

/-- Modelled from the spec: the test of a TPDU's type, by the upper nibble of
its code byte; the index is the length indicator for a match and that of the
code byte's end otherwise. -/
def specIsType (code : Nat) (buf : List Nat) : Bool × Nat :=
  if 2 ≤ buf.length ∧ buf.getD 1 0 / 16 = code then (true, buf.getD 0 0)
  else (false, min 2 buf.length)

/-- Modelled from the spec: `validateDt`, defined outside `tosi_api.go`. A DT
with a wrong length indicator is malformed; the offending bytes are echoed. -/
def specValidateDt (tpdu : List Nat) : Bool × List Nat :=
  if 3 ≤ tpdu.length ∧ tpdu.getD 0 0 = 2 then (true, []) else (false, tpdu.take 1)

/-- Modelled from the spec: the codec of the data path, defined outside
`tosi_api.go` (`tpkt`, `dt`, `er`, `isTPKT`, `isDT`, `isER`, `isDR`,
`validateDt`, `getERerror`, `getDRerror`). -/
def specCodec : Codec where
  tpkt := specTpkt
  dt := specDt
  er := specEr
  isTPKT := specIsTPKT
  isDT := specIsType 0xF
  isER := specIsType 0x7
  isDR := specIsType 0x8
  validateDt := specValidateDt
  getERerror := fun buf => some (GoErr.erError (buf.getD 4 0))
  getDRerror := fun buf => some (GoErr.drError (buf.getD 6 0))

/-- The End-of-TSDU flag of a DT wrapped in its TPKT, as sent to TCP: the high
bit of the NR/EOT byte, the third byte of the DT after the 4-byte TPKT header. -/
def eotOfTpkt (wire : List Nat) : Bool :=
  decide (128 ≤ wire.getD (tpktHlen + 2) 0 % 256)

/-! ## What a call of Write emits -/

/-- The bytes handed to TCP between the connection states `before` and
`after`, call by call. -/
def emitted (before after : TCP) : List (List Nat) :=
  (after.wlog.drop before.wlog.length).map WCall.bytes

/-- The `i`-th fragment `b[S*i : min(S*(i+1), len b)]`. -/
def chunk (b : List Nat) (S i : Nat) : List Nat :=
  (b.take (min (S * (i + 1)) b.length)).drop (S * i)

/-- The `dt` call for the `i`-th fragment. -/
def chunkCall (b : List Nat) (S i : Nat) : DTCall :=
  ⟨S * i, min (S * (i + 1)) b.length, chunk b S i⟩

/-- The End-of-TSDU rule of the spec on one call of `Write`: the call returns,
it emits at least one DT, the last DT emitted has EOT=1 and every earlier one
has EOT=0. -/
@[irreducible]
def EOTCorrect (cdc : Codec) (c : TOSIConn) (b : List Nat) : Prop :=
  match c.Write cdc (some b) with
  | Exec.ret r =>
    let flags := (emitted c.tcpConn r.conn.tcpConn).map eotOfTpkt
    flags = List.replicate (flags.length - 1) false ++ [true]
  | _ => False

/-- A connection of the given maximum TPDU size on a fresh TCP connection
that will deliver `rx`. -/
def connOf (maxTpduSize : Nat) (rx : List RxEvent) : TOSIConn :=
  { tcpConn := ⟨rx, [], [], 0, 0, false, [127, 0, 0, 1], [127, 0, 0, 1]⟩
    laddr := ⟨[127, 0, 0, 1], none⟩
    raddr := ⟨[127, 0, 0, 1], none⟩
    maxTpduSize := maxTpduSize
    srcRef := [1, 1]
    dstRef := [2, 2]
    readBuf := none
    readDeadline := 0
    writeDeadline := 0 }

/-! ## Initial data -/

/-- Modelled from the spec: the dial with options (`DialOptTOSI`, `DialOpt`),
which only the tests name; `tosi_api.go` has no initial data. The option
`Data` is the initial user data of the caller. -/
structure DialOpt where
  Data : List Nat
  deriving DecidableEq

/-- Modelled from the spec: the user-data field of the CR that the dial with
options builds, absent from `tosi_api.go`: the "initial user data (truncated
to the initial-data capacity)". -/
def crUserData (opt : DialOpt) (capacity : Nat) : List Nat :=
  opt.Data.take capacity

/-- Modelled from the spec: what the dial with options (absent from
`tosi_api.go`) gives for the initial data once the handshake succeeded: the
error the caller sees for them, and the bytes exposed to the peer by the
accepting side's initial-data predicate applied to the CR's user data. -/
def dialInitialData (opt : DialOpt) (capacity : Nat) (predicate : List Nat → List Nat) :
    Option GoErr × List Nat :=
  (none, predicate (crUserData opt capacity))

/-- Modelled from the spec: the initial-data capacity "in practice" of the
dial with options, absent from `tosi_api.go`: 32 bytes. -/
def maxInitialData : Nat := 32

/-- A run of `Read` calls into the given caller buffers, one after the other:
the bytes delivered (the first `n` bytes of each buffer), concatenated, and
the connection at the end. -/
def readAll (cdc : Codec) : TOSIConn → List (List Nat) → Exec (List Nat × TOSIConn)
  | c, [] => Exec.ret ([], c)
  | c, b :: bs =>
    match c.Read cdc (some b) with
    | Exec.ret r =>
      match readAll cdc r.conn bs with
      | Exec.ret (d, c1) => Exec.ret (r.b.take r.n ++ d, c1)
      | Exec.panic => Exec.panic
      | Exec.outOfFuel => Exec.outOfFuel
    | Exec.panic => Exec.panic
    | Exec.outOfFuel => Exec.outOfFuel

/-- A fresh TCP connection on which the peer sent the four bytes `2, 0, 0, 7`:
a TPKT header but for its version, 2. -/
def tcpVersion2 : TCP :=
  ⟨[RxEvent.data [2, 0, 0, 7]], [], [], 0, 0, false, [127, 0, 0, 1], [127, 0, 0, 1]⟩

/-- An open connection with the read deadline 7 and the write deadline 9, set
on the connection and on TCP alike. -/
def connDeadlines : TOSIConn :=
  { connOf 2048 [] with
    tcpConn := ⟨[], [], [], 7, 9, false, [127, 0, 0, 1], [127, 0, 0, 1]⟩
    readDeadline := 7
    writeDeadline := 9 }

/-- A connection (read buffer empty) on which the TPKT of the DT with payload
`10, 20, 30, 40, 50` arrives in two TCP segments: the 4-byte TPKT header, the
3-byte DT header and the payload bytes `10, 20` first, then `30, 40, 50`. -/
def connSplitDT : TOSIConn :=
  connOf 2048 [RxEvent.data [3, 0, 0, 12, 2, 0xF0, 0x80, 10, 20], RxEvent.data [30, 40, 50]]

/-- The number of `dt` calls of a `Write` of `L` bytes whose TCP writes all
succeed, for the SDU size `S`: one on the direct path, `L / S + 1` in the loop. -/
def numDTs (L S : Nat) : Nat := if L ≤ S then 1 else L / S + 1

/-! # Theorems -/

/-! ## The TCP layer -/

theorem TCP.Write_bytes (t : TCP) (d : List Nat) :
    (t.Write d).2.2.wlog.map WCall.bytes = t.wlog.map WCall.bytes ++ [d] := by
  unfold TCP.Write
  split
  · simp
  · split <;> simp

theorem TCP.Write_ok (t : TCP) (d : List Nat) (h : t.writesSucceed) :
    (t.Write d).1 = d.length ∧ (t.Write d).2.1 = none ∧ (t.Write d).2.2.writesSucceed := by
  obtain ⟨hc, hw⟩ := h
  unfold TCP.Write TCP.writesSucceed
  rw [hc]
  simp only [Bool.false_eq_true, if_false]
  split
  · next h0 => simp [hc, h0]
  · next rest h0 =>
    refine ⟨rfl, rfl, rfl, ?_⟩
    intro o ho
    exact hw o (by rw [h0]; exact List.mem_cons_of_mem _ ho)
  · next k e rest h0 =>
    have := hw (some (k, e)) (by rw [h0]; exact List.mem_cons_self _ _)
    cases this

/-! ## The loop of Write -/

theorem slice_chunk (b : List Nat) (S i : Nat) (h : S * i ≤ b.length) :
    slice b (S * i) (min (S * (i + 1)) b.length) = some (chunk b S i) := by
  unfold slice chunk
  have h1 : S * i ≤ min (S * (i + 1)) b.length :=
    le_min (Nat.mul_le_mul_left S (Nat.le_succ i)) h
  simp [h1]

theorem writeLoop_step (cdc : Codec) (b : List Nat) (S L N fuel i n : Nat) (c : TOSIConn)
    (dts : List DTCall) (p : List Nat) (hi : i < N)
    (hs : slice b ((S * i) % 2 ^ 64)
      (if (S * (i + 1)) % 2 ^ 64 > L then L else (S * (i + 1)) % 2 ^ 64) = some p) :
    writeLoop cdc b S L N (fuel + 1) i n c dts =
      if (c.tcpConn.Write (cdc.tpkt (cdc.dt p))).2.1 ≠ none then
        Exec.ret ⟨n + (c.tcpConn.Write (cdc.tpkt (cdc.dt p))).1,
          (c.tcpConn.Write (cdc.tpkt (cdc.dt p))).2.1,
          { c with tcpConn := (c.tcpConn.Write (cdc.tpkt (cdc.dt p))).2.2 },
          dts ++ [⟨(S * i) % 2 ^ 64,
            if (S * (i + 1)) % 2 ^ 64 > L then L else (S * (i + 1)) % 2 ^ 64, p⟩]⟩
      else
        writeLoop cdc b S L N fuel ((i + 1) % 2 ^ 64)
          (n + (c.tcpConn.Write (cdc.tpkt (cdc.dt p))).1)
          { c with tcpConn := (c.tcpConn.Write (cdc.tpkt (cdc.dt p))).2.2 }
          (dts ++ [⟨(S * i) % 2 ^ 64,
            if (S * (i + 1)) % 2 ^ 64 > L then L else (S * (i + 1)) % 2 ^ 64, p⟩]) := by
  rw [writeLoop]
  simp only [hi, if_true, hs]

theorem writeLoop_done (cdc : Codec) (b : List Nat) (S L N fuel i n : Nat) (c : TOSIConn)
    (dts : List DTCall) (hi : ¬ i < N) :
    writeLoop cdc b S L N (fuel + 1) i n c dts = Exec.ret ⟨n, none, c, dts⟩ := by
  rw [writeLoop]
  simp only [hi, if_false]

theorem writeLoop_spec (cdc : Codec) (b : List Nat) (S : Nat)
    (hS : 0 < S) (hSb : S < 2 ^ 63) (hL : b.length < 2 ^ 63) :
    ∀ (fuel i n : Nat) (c : TOSIConn) (dts : List DTCall),
      i ≤ b.length / S + 1 → b.length / S + 1 - i < fuel →
      ∃ (r : WriteRes) (m : Nat),
        writeLoop cdc b S b.length (b.length / S + 1) fuel i n c dts = Exec.ret r ∧
        i + m ≤ b.length / S + 1 ∧
        r.dts = dts ++ (List.range' i m).map (chunkCall b S) ∧
        r.conn.tcpConn.wlog.map WCall.bytes = c.tcpConn.wlog.map WCall.bytes ++
          (List.range' i m).map (fun j => cdc.tpkt (cdc.dt (chunk b S j))) ∧
        (c.tcpConn.writesSucceed →
          i + m = b.length / S + 1 ∧ r.err = none ∧
          r.n = n + ((List.range' i m).map
            (fun j => (cdc.tpkt (cdc.dt (chunk b S j))).length)).sum) := by
  intro fuel
  induction fuel with
  | zero => intro i n c dts _ h; omega
  | succ fuel ih =>
    intro i n c dts hiN hfuel
    by_cases hi : i < b.length / S + 1
    · have hle : S * i ≤ b.length :=
        le_trans (Nat.mul_le_mul_left S (Nat.lt_succ_iff.mp hi)) (Nat.mul_div_le _ _)
      have hle2 : S * (i + 1) ≤ b.length + S := by rw [Nat.mul_succ]; omega
      have e1 : (S * i) % 2 ^ 64 = S * i := Nat.mod_eq_of_lt (by omega)
      have e2 : (S * (i + 1)) % 2 ^ 64 = S * (i + 1) := Nat.mod_eq_of_lt (by omega)
      have e3 : (if S * (i + 1) > b.length then b.length else S * (i + 1)) =
          min (S * (i + 1)) b.length := by
        split <;> omega
      have e4 : (i + 1) % 2 ^ 64 = i + 1 := by
        have : b.length / S ≤ b.length := Nat.div_le_self _ _
        exact Nat.mod_eq_of_lt (by omega)
      have hs := slice_chunk b S i hle
      rw [writeLoop_step cdc b S b.length _ fuel i n c dts (chunk b S i) hi
        (by rw [e1, e2, e3]; exact hs)]
      rw [e1, e2, e3, e4]
      have hb := TCP.Write_bytes c.tcpConn (cdc.tpkt (cdc.dt (chunk b S i)))
      by_cases herr : (c.tcpConn.Write (cdc.tpkt (cdc.dt (chunk b S i)))).2.1 ≠ none
      · rw [if_pos herr]
        refine ⟨_, 1, rfl, by omega, ?_, ?_, ?_⟩
        · simp [chunkCall]
        · simp [hb]
        · intro hw
          exact absurd (TCP.Write_ok _ _ hw).2.1 herr
      · rw [if_neg herr]
        obtain ⟨r, m, hr, hm, hd, hlog, hok⟩ := ih (i + 1)
          (n + (c.tcpConn.Write (cdc.tpkt (cdc.dt (chunk b S i)))).1)
          { c with tcpConn := (c.tcpConn.Write (cdc.tpkt (cdc.dt (chunk b S i)))).2.2 }
          (dts ++ [⟨S * i, min (S * (i + 1)) b.length, chunk b S i⟩]) (by omega) (by omega)
        refine ⟨r, m + 1, hr, by omega, ?_, ?_, ?_⟩
        · rw [hd]; simp [List.range'_succ, chunkCall]
        · rw [hlog]; simp [List.range'_succ, hb]
        · intro hw
          obtain ⟨h1, h2, h3⟩ := TCP.Write_ok _ (cdc.tpkt (cdc.dt (chunk b S i))) hw
          obtain ⟨k1, k2, k3⟩ := hok h3
          refine ⟨by omega, k2, ?_⟩
          rw [k3, h1]; simp [List.range'_succ]; omega
    · rw [writeLoop_done cdc b S b.length _ fuel i n c dts hi]
      refine ⟨_, 0, rfl, by omega, by simp, by simp, ?_⟩
      intro _
      exact ⟨by omega, rfl, by simp⟩

/-! ## The fragments -/

theorem chunk_length_le (b : List Nat) (S i : Nat) : (chunk b S i).length ≤ S := by
  unfold chunk
  rw [List.length_drop, List.length_take, Nat.mul_succ]
  omega

theorem chunk_length_full (b : List Nat) (S i : Nat) (h : S * (i + 1) ≤ b.length) :
    (chunk b S i).length = S := by
  unfold chunk
  rw [List.length_drop, List.length_take]
  rw [Nat.mul_succ] at h ⊢
  omega

theorem chunk_flatten (b : List Nat) (S : Nat) :
    ∀ k, ((List.range' 0 k).map (chunk b S)).flatten = b.take (min (S * k) b.length) := by
  intro k
  induction k with
  | zero => simp
  | succ k ih =>
    rw [List.range'_concat, List.map_append, List.flatten_append, ih]
    simp only [List.map_cons, List.map_nil, List.flatten_cons, List.flatten_nil,
      List.append_nil, Nat.zero_add, Nat.one_mul]
    unfold chunk
    by_cases h : S * k ≤ b.length
    · have h1 : min (S * k) b.length = S * k := min_eq_left h
      have h2 : S * k ≤ min (S * (k + 1)) b.length :=
        le_min (Nat.mul_le_mul_left S (Nat.le_succ k)) h
      have h3 : b.take (S * k) = (b.take (min (S * (k + 1)) b.length)).take (S * k) := by
        rw [List.take_take, min_eq_left h2]
      rw [h1, h3]
      exact List.take_append_drop _ _
    · have h1 : min (S * k) b.length = b.length := min_eq_right (by omega)
      have h2 : min (S * (k + 1)) b.length = b.length := by
        rw [Nat.mul_succ]; omega
      rw [h1, h2]
      simp only [List.take_length, List.append_right_eq_self, List.drop_eq_nil_iff]
      omega

theorem chunk_flatten_all (b : List Nat) (S m : Nat) (h : b.length ≤ S * m) :
    ((List.range' 0 m).map (chunk b S)).flatten = b := by
  rw [chunk_flatten, min_eq_right h, List.take_length]

theorem chunk_length_sum (b : List Nat) (S m : Nat) (h : b.length ≤ S * m) :
    ((List.range' 0 m).map (fun j => (chunk b S j).length)).sum = b.length := by
  have := congrArg List.length (chunk_flatten_all b S m h)
  rw [List.length_flatten, List.map_map] at this
  exact this

/-! ## Write as a whole -/

theorem emitted_of_append (t t1 : TCP) (X : List (List Nat))
    (h : t1.wlog.map WCall.bytes = t.wlog.map WCall.bytes ++ X) : emitted t t1 = X := by
  unfold emitted
  rw [List.map_drop, h]
  have : t.wlog.length = (t.wlog.map WCall.bytes).length := by simp
  rw [this, List.drop_left]

theorem chunkCall_zero (b : List Nat) (S : Nat) (h : b.length ≤ S) :
    chunkCall b S 0 = ⟨0, b.length, b⟩ := by
  simp [chunkCall, chunk, min_eq_right h]

theorem Write_spec (cdc : Codec) (c : TOSIConn) (b : List Nat)
    (h3 : 3 < c.maxTpduSize) (hM : c.maxTpduSize < 2 ^ 63) (hL : b.length < 2 ^ 63) :
    ∃ (r : WriteRes) (m : Nat),
      c.Write cdc (some b) = Exec.ret r ∧
      m ≤ numDTs b.length (c.maxTpduSize - 3) ∧
      r.dts = (List.range' 0 m).map (chunkCall b (c.maxTpduSize - 3)) ∧
      emitted c.tcpConn r.conn.tcpConn =
        (List.range' 0 m).map (fun j => cdc.tpkt (cdc.dt (chunk b (c.maxTpduSize - 3) j))) ∧
      (c.tcpConn.writesSucceed →
        m = numDTs b.length (c.maxTpduSize - 3) ∧ r.err = none ∧
        r.n = ((List.range' 0 m).map
          (fun j => (cdc.tpkt (cdc.dt (chunk b (c.maxTpduSize - 3) j))).length)).sum) := by
  have eS : (c.maxTpduSize + 2 ^ 64 - dtMinLen) % 2 ^ 64 = c.maxTpduSize - 3 := by
    unfold dtMinLen; omega
  have eL : b.length % 2 ^ 64 = b.length := Nat.mod_eq_of_lt (by omega)
  unfold TOSIConn.Write
  simp only [eS, eL]
  by_cases hbig : b.length > c.maxTpduSize - 3
  · have hS0 : ¬ (c.maxTpduSize - 3 = 0) := by omega
    have eN : (b.length / (c.maxTpduSize - 3) + 1) % 2 ^ 64 =
        b.length / (c.maxTpduSize - 3) + 1 := by
      have : b.length / (c.maxTpduSize - 3) ≤ b.length := Nat.div_le_self _ _
      exact Nat.mod_eq_of_lt (by omega)
    rw [if_pos hbig, if_neg hS0]
    simp only [eN]
    obtain ⟨r, m, hr, hm, hd, hlog, hok⟩ :=
      writeLoop_spec cdc b (c.maxTpduSize - 3) (by omega) (by omega) hL
        (b.length / (c.maxTpduSize - 3) + 1 + 1) 0 0 c [] (by omega) (by omega)
    have hnum : numDTs b.length (c.maxTpduSize - 3) = b.length / (c.maxTpduSize - 3) + 1 := by
      unfold numDTs; rw [if_neg (by omega)]
    refine ⟨r, m, hr, by omega, by simpa using hd, emitted_of_append _ _ _ hlog, ?_⟩
    intro hw
    obtain ⟨k1, k2, k3⟩ := hok hw
    exact ⟨by omega, k2, by simpa using k3⟩
  · rw [if_neg hbig]
    have hnum : numDTs b.length (c.maxTpduSize - 3) = 1 := by
      unfold numDTs; rw [if_pos (by omega)]
    refine ⟨_, 1, rfl, by omega, ?_, ?_, ?_⟩
    · simp [chunkCall_zero b _ (Nat.le_of_not_gt hbig)]
    · apply emitted_of_append
      have e0 : chunk b (c.maxTpduSize - 3) 0 = b := by
        have := congrArg DTCall.payload (chunkCall_zero b _ (Nat.le_of_not_gt hbig))
        simpa [chunkCall] using this
      simp [TCP.Write_bytes, e0]
    · intro hw
      have e0 : chunk b (c.maxTpduSize - 3) 0 = b := by
        have := congrArg DTCall.payload (chunkCall_zero b _ (Nat.le_of_not_gt hbig))
        simpa [chunkCall] using this
      obtain ⟨h1, h2, _⟩ := TCP.Write_ok _ (cdc.tpkt (cdc.dt b)) hw
      exact ⟨hnum.symm, h2, by simp [h1, e0]⟩

theorem numDTs_cover (L S : Nat) (hS : 0 < S) : L ≤ S * numDTs L S := by
  unfold numDTs
  split
  · omega
  · have h1 := Nat.div_add_mod L S
    have h2 := Nat.mod_lt L hS
    rw [Nat.mul_succ]
    omega

theorem numDTs_pos (L S : Nat) : 0 < numDTs L S := by
  unfold numDTs
  split
  · exact Nat.one_pos
  · exact Nat.succ_pos _

theorem chunk_index_le (L S j : Nat) (hj : j < numDTs L S) : S * j ≤ L := by
  unfold numDTs at hj
  split at hj
  · have : j = 0 := by omega
    subst this
    simp
  · exact le_trans (Nat.mul_le_mul_left S (Nat.lt_succ_iff.mp hj)) (Nat.mul_div_le _ _)

theorem chunk_lengths_full (b : List Nat) (S : Nat) :
    ∀ k, S * k ≤ b.length →
      (List.range' 0 k).map (fun j => (chunk b S j).length) = List.replicate k S := by
  intro k
  induction k with
  | zero => intro _; simp
  | succ k ih =>
    intro h
    have hk : S * k ≤ b.length := le_trans (Nat.mul_le_mul_left S (Nat.le_succ k)) h
    rw [List.range'_concat, List.map_append, ih hk, List.replicate_succ']
    simp [chunk_length_full b S k h]

theorem chunk_length_last (b : List Nat) (S : Nat) (hS : 0 < S) :
    (chunk b S (b.length / S)).length = b.length % S := by
  unfold chunk
  rw [List.length_drop, List.length_take]
  have h1 := Nat.div_add_mod b.length S
  have h2 := Nat.mod_lt b.length hS
  rw [Nat.mul_succ]
  omega

/-! ## Write: the claims -/

/-- C1. What `TOSIConn.Write` does on the fragmented path: for a buffer of
length `L` greater than the SDU size `S = max_tpdu_size - 3`, with all TCP
writes succeeding, it makes `L / S + 1` calls of `dt`, the first `L / S` on
`S` bytes each and the last on the `L % S` bytes left. When `S` divides `L`
that is one DT more than `⌈L/S⌉`, and the last DT carries no byte. -/
theorem Write_fragment_count (cdc : Codec) (c : TOSIConn) (b : List Nat)
    (hlo : 128 ≤ c.maxTpduSize) (hhi : c.maxTpduSize ≤ 8192) (hL : b.length < 2 ^ 63)
    (hw : c.tcpConn.writesSucceed) (hbig : c.maxTpduSize - 3 < b.length) :
    ∃ r, c.Write cdc (some b) = Exec.ret r ∧
      r.dts.map (fun d => d.payload.length) =
        List.replicate (b.length / (c.maxTpduSize - 3)) (c.maxTpduSize - 3) ++
          [b.length % (c.maxTpduSize - 3)] ∧
      r.dts.length = b.length / (c.maxTpduSize - 3) + 1 ∧
      (b.length % (c.maxTpduSize - 3) = 0 →
        r.dts.length = (b.length + (c.maxTpduSize - 3) - 1) / (c.maxTpduSize - 3) + 1) := by
  obtain ⟨r, m, hr, _, hd, _, hok⟩ := Write_spec cdc c b (by omega) (by omega) hL
  obtain ⟨hm, _, _⟩ := hok hw
  have hS : 0 < c.maxTpduSize - 3 := by omega
  have hnum : numDTs b.length (c.maxTpduSize - 3) = b.length / (c.maxTpduSize - 3) + 1 := by
    unfold numDTs; rw [if_neg (by omega)]
  rw [hnum] at hm
  have hlen : r.dts.length = b.length / (c.maxTpduSize - 3) + 1 := by
    rw [hd, hm]; simp
  refine ⟨r, hr, ?_, hlen, ?_⟩
  · rw [hd, hm, List.map_map, List.range'_concat, List.map_append,
      ← chunk_lengths_full b (c.maxTpduSize - 3) _ (Nat.mul_div_le _ _)]
    simp [Function.comp_def, chunkCall, chunk_length_last b _ hS]
  · intro h0
    rw [hlen]
    have h1 := Nat.div_add_mod b.length (c.maxTpduSize - 3)
    rw [h0, Nat.add_zero] at h1
    have : (b.length + (c.maxTpduSize - 3) - 1) / (c.maxTpduSize - 3) =
        b.length / (c.maxTpduSize - 3) := by
      apply Nat.div_eq_of_lt_le
      · rw [Nat.mul_comm]; omega
      · rw [Nat.succ_mul, Nat.mul_comm]; omega
    rw [this]

/-- C1, at `max_tpdu_size = 128` (`S = 125`) and 250 bytes: three DTs, of 125,
125 and 0 bytes, where `⌈250/125⌉ = 2`. -/
theorem Write_fragment_count_witness :
    ∃ r, (connOf 128 []).Write specCodec (some (List.replicate 250 0)) = Exec.ret r ∧
      r.dts.map (fun d => d.payload.length) = [125, 125, 0] ∧ r.dts.length = 3 ∧
      (250 + 125 - 1) / 125 = 2 := by
  have hc : (connOf 128 []).maxTpduSize = 128 := rfl
  obtain ⟨r, hr, h1, h2, _⟩ := Write_fragment_count specCodec (connOf 128 [])
    (List.replicate 250 0) (by decide) (by decide) (by rw [List.length_replicate]; decide)
    ⟨rfl, by simp [connOf]⟩ (by rw [hc, List.length_replicate]; decide)
  rw [hc, List.length_replicate] at h1 h2
  exact ⟨r, hr, h1, h2, by decide⟩

/-- C2. Write conservation: with `max_tpdu_size` from 128 to 8192 and all TCP
writes succeeding, `Write` returns without error, the payloads it hands to
`dt`, concatenated in the order of emission, are the buffer, and what it hands
to TCP is, call by call, `tpkt(dt(payload))`. -/
theorem Write_conservation (cdc : Codec) (c : TOSIConn) (b : List Nat)
    (hlo : 128 ≤ c.maxTpduSize) (hhi : c.maxTpduSize ≤ 8192) (hL : b.length < 2 ^ 63)
    (hw : c.tcpConn.writesSucceed) :
    ∃ r, c.Write cdc (some b) = Exec.ret r ∧ r.err = none ∧
      (r.dts.map DTCall.payload).flatten = b ∧
      emitted c.tcpConn r.conn.tcpConn = r.dts.map (fun d => cdc.tpkt (cdc.dt d.payload)) := by
  obtain ⟨r, m, hr, _, hd, hem, hok⟩ := Write_spec cdc c b (by omega) (by omega) hL
  obtain ⟨hm, herr, _⟩ := hok hw
  refine ⟨r, hr, herr, ?_, ?_⟩
  · rw [hd, List.map_map]
    have : (DTCall.payload ∘ chunkCall b (c.maxTpduSize - 3)) = chunk b (c.maxTpduSize - 3) := by
      funext j; rfl
    rw [this]
    exact chunk_flatten_all b _ m (by rw [hm]; exact numDTs_cover _ _ (by omega))
  · rw [hem, hd, List.map_map]; rfl

/-- C2, at `max_tpdu_size = 128` and the 7-byte buffer `1..7`. -/
theorem Write_conservation_witness :
    ∃ r, (connOf 128 []).Write specCodec (some [1, 2, 3, 4, 5, 6, 7]) = Exec.ret r ∧
      r.err = none ∧ (r.dts.map DTCall.payload).flatten = [1, 2, 3, 4, 5, 6, 7] :=
  (Write_conservation specCodec (connOf 128 []) [1, 2, 3, 4, 5, 6, 7] (by decide) (by decide)
    (by decide) ⟨rfl, by simp [connOf]⟩).imp fun _ h => ⟨h.1, h.2.1, h.2.2.1⟩

/-- C3. What `TOSIConn.Write` returns: with every TCP write succeeding and
reporting the full length of the TPKT it was given, and a TPKT of a DT being 7
bytes longer than the payload (4 of TPKT header, 3 of DT header), `Write`
returns `n = len(b) + 7 * (number of DTs)`, the count of raw TCP bytes, which
is greater than `len(b)`. -/
theorem Write_returns_tcp_bytes (cdc : Codec) (c : TOSIConn) (b : List Nat)
    (hlo : 128 ≤ c.maxTpduSize) (hhi : c.maxTpduSize ≤ 8192) (hL : b.length < 2 ^ 63)
    (hw : c.tcpConn.writesSucceed)
    (hframe : ∀ p, (cdc.tpkt (cdc.dt p)).length = p.length + 7) :
    ∃ r, c.Write cdc (some b) = Exec.ret r ∧ r.err = none ∧
      r.n = b.length + 7 * numDTs b.length (c.maxTpduSize - 3) ∧ b.length < r.n := by
  obtain ⟨r, m, hr, _, _, _, hok⟩ := Write_spec cdc c b (by omega) (by omega) hL
  obtain ⟨hm, herr, hn⟩ := hok hw
  have hcov : b.length ≤ (c.maxTpduSize - 3) * m := by
    rw [hm]; exact numDTs_cover _ _ (by omega)
  have hsum : r.n = b.length + 7 * m := by
    rw [hn]
    simp only [hframe]
    rw [List.sum_map_add, chunk_length_sum b _ m hcov]
    simp [Nat.mul_comm]
  have hpos := numDTs_pos b.length (c.maxTpduSize - 3)
  refine ⟨r, hr, herr, by rw [hsum, hm], ?_⟩
  rw [hsum, hm]; omega

/-- C3, at `max_tpdu_size = 128` and the 3-byte buffer `1, 2, 3`: `Write`
returns 10, not 3. -/
theorem Write_returns_tcp_bytes_witness :
    ∃ r, (connOf 128 []).Write specCodec (some [1, 2, 3]) = Exec.ret r ∧
      r.err = none ∧ r.n = 10 := by
  obtain ⟨r, hr, he, hn, _⟩ := Write_returns_tcp_bytes specCodec (connOf 128 []) [1, 2, 3]
    (by decide) (by decide) (by decide) ⟨rfl, by simp [connOf]⟩
    (by intro p; simp [specCodec, specTpkt, specDt])
  exact ⟨r, hr, he, by rw [hn]; decide⟩

/-- C4. Size cap: for `max_tpdu_size` one of 128, 256, 512, 1024, 2048, 4096,
8192 and any outcome of the TCP writes, `max_tpdu_size - dtMinLen` does not
wrap and is not zero, `Write` returns (no panic), and every slice
`b[start:stop]` it passes to `dt` has `start ≤ stop ≤ len(b)`, is that slice
of `b`, and has at most `max_tpdu_size - 3` bytes, so that the 3 header bytes
and the payload together do not exceed `max_tpdu_size`. -/
theorem Write_size_cap (cdc : Codec) (c : TOSIConn) (b : List Nat)
    (hmem : c.maxTpduSize ∈ [128, 256, 512, 1024, 2048, 4096, 8192])
    (hL : b.length < 2 ^ 63) :
    dtMinLen ≤ c.maxTpduSize ∧
    (c.maxTpduSize + 2 ^ 64 - dtMinLen) % 2 ^ 64 = c.maxTpduSize - 3 ∧
    c.maxTpduSize - 3 ≠ 0 ∧
    ∃ r, c.Write cdc (some b) = Exec.ret r ∧
      ∀ d ∈ r.dts, d.start ≤ d.stop ∧ d.stop ≤ b.length ∧
        slice b d.start d.stop = some d.payload ∧
        d.payload.length ≤ c.maxTpduSize - 3 ∧
        dtMinLen + d.payload.length ≤ c.maxTpduSize := by
  have hr : 128 ≤ c.maxTpduSize ∧ c.maxTpduSize ≤ 8192 := by
    simp only [List.mem_cons, List.mem_singleton, List.not_mem_nil, or_false] at hmem
    omega
  refine ⟨by unfold dtMinLen; omega, by unfold dtMinLen; omega, by omega, ?_⟩
  obtain ⟨r, m, hret, hm, hd, _, _⟩ := Write_spec cdc c b (by omega) (by omega) hL
  refine ⟨r, hret, ?_⟩
  intro d hdm
  rw [hd, List.mem_map] at hdm
  obtain ⟨j, hj, rfl⟩ := hdm
  rw [List.mem_range'_1] at hj
  have hle : (c.maxTpduSize - 3) * j ≤ b.length := chunk_index_le _ _ j (by omega)
  have hlen := chunk_length_le b (c.maxTpduSize - 3) j
  refine ⟨?_, ?_, ?_, ?_, ?_⟩
  · exact le_min (Nat.mul_le_mul_left _ (Nat.le_succ j)) hle
  · exact min_le_right _ _
  · exact slice_chunk b _ j hle
  · exact hlen
  · show dtMinLen + (chunk b (c.maxTpduSize - 3) j).length ≤ c.maxTpduSize
    unfold dtMinLen; omega

/-- C4, at `max_tpdu_size = 2048`, a 5-byte buffer and a TCP connection whose
first write fails. -/
theorem Write_size_cap_witness :
    ∃ r, ({ connOf 2048 [] with
              tcpConn := ⟨[], [some (0, GoErr.tcpError 1)], [], 0, 0, false, [], []⟩ }
            : TOSIConn).Write specCodec (some [1, 2, 3, 4, 5]) = Exec.ret r ∧
      ∀ d ∈ r.dts, d.payload.length ≤ 2045 :=
  (Write_size_cap specCodec _ [1, 2, 3, 4, 5] (by decide) (by decide)).2.2.2.imp
    fun _ h => ⟨h.1, fun d hd => (h.2 d hd).2.2.2.1⟩

/-- C5, refuted: whatever the codec's `dt` does, the End-of-TSDU rule fails on
one of two writes on a connection of `max_tpdu_size = 128` (`S = 125`). The
write of 125 zero bytes emits the single DT `dt(p)` with `p` the 125 zeros,
which the rule wants with EOT=1; the write of these 125 zeros followed by one
more byte emits `dt(p)` and then `dt([1])`, and the rule wants the first with
EOT=0. -/
theorem EOT_rule_fails :
    ¬ ∃ cdc : Codec,
      EOTCorrect cdc (connOf 128 []) (List.replicate 125 0) ∧
      EOTCorrect cdc (connOf 128 []) (List.replicate 125 0 ++ [1]) := by
  rintro ⟨cdc, h1, h2⟩
  have hc : (connOf 128 []).maxTpduSize - 3 = 125 := rfl
  have hw : (connOf 128 []).tcpConn.writesSucceed := ⟨rfl, by simp [connOf]⟩
  have l1 : (List.replicate 125 0 : List Nat).length = 125 := List.length_replicate _ _
  generalize (List.replicate 125 0 : List Nat) = p at h1 h2 l1
  have l2 : (p ++ [1]).length = 126 := by
    rw [List.length_append, l1]; rfl
  obtain ⟨r1, m1, hr1, _, _, he1, hok1⟩ := Write_spec cdc (connOf 128 []) p
    (by decide) (by decide) (by rw [l1]; decide)
  obtain ⟨r2, m2, hr2, _, _, he2, hok2⟩ := Write_spec cdc (connOf 128 []) (p ++ [1])
    (by decide) (by decide) (by rw [l2]; decide)
  obtain ⟨hm1, _, _⟩ := hok1 hw
  obtain ⟨hm2, _, _⟩ := hok2 hw
  rw [hc, l1] at hm1
  rw [hc, l2] at hm2
  have n1 : numDTs 125 125 = 1 := by decide
  have n2 : numDTs 126 125 = 2 := by decide
  rw [n1] at hm1
  rw [n2] at hm2
  subst hm1
  subst hm2
  have c1 : chunk p 125 0 = p := by
    unfold chunk
    have : min (125 * (0 + 1)) p.length = p.length := by rw [l1]; decide
    rw [this, List.take_length]
    rfl
  have c2 : chunk (p ++ [1]) 125 0 = p := by
    unfold chunk
    have : min (125 * (0 + 1)) (p ++ [1]).length = p.length := by rw [l2, l1]; decide
    rw [this, List.take_left]
    rfl
  rw [hc] at he1 he2
  unfold EOTCorrect at h1 h2
  rw [hr1] at h1
  rw [hr2] at h2
  simp only [he1, he2, List.range'_succ, List.range'_zero, List.map_cons, List.map_nil, c1,
    c2, List.length_cons, List.length_nil] at h1 h2
  generalize eotOfTpkt (cdc.tpkt (cdc.dt p)) = e at h1 h2
  have e1 : e = true := by simpa using h1
  have e2 : e = false := by
    have := congrArg (fun l => l.head?) h2
    simpa using this
  rw [e1] at e2
  cases e2

/-- C5, amended. For `max_tpdu_size` from 128 to 8192 and any outcome of the
TCP writes, what a call of `Write` hands to TCP is, call by call,
`tpkt(dt(p))` for the payload slices `p` it cut, in order; the End-of-TSDU bit
of each emitted DT is thus the one `dt` gives to the payload bytes alone, the
same for a final and a non-final DT of equal payload. -/
theorem Write_eot_by_payload (cdc : Codec) (c : TOSIConn) (b : List Nat)
    (hlo : 128 ≤ c.maxTpduSize) (hhi : c.maxTpduSize ≤ 8192) (hL : b.length < 2 ^ 63) :
    ∃ r, c.Write cdc (some b) = Exec.ret r ∧
      emitted c.tcpConn r.conn.tcpConn = r.dts.map (fun d => cdc.tpkt (cdc.dt d.payload)) ∧
      (emitted c.tcpConn r.conn.tcpConn).map eotOfTpkt =
        r.dts.map (fun d => eotOfTpkt (cdc.tpkt (cdc.dt d.payload))) := by
  obtain ⟨r, m, hr, _, hd, hem, _⟩ := Write_spec cdc c b (by omega) (by omega) hL
  have h : emitted c.tcpConn r.conn.tcpConn =
      r.dts.map (fun d => cdc.tpkt (cdc.dt d.payload)) := by
    rw [hem, hd, List.map_map]; rfl
  refine ⟨r, hr, h, ?_⟩
  rw [h, List.map_map]; rfl

/-- C5 amended, at `max_tpdu_size = 128` and a 126-byte buffer: two DTs, both
with the EOT bit that the spec's `dt` sets on every payload. -/
theorem Write_eot_by_payload_witness :
    ∃ r, (connOf 128 []).Write specCodec (some (List.replicate 126 0)) = Exec.ret r ∧
      (emitted (connOf 128 []).tcpConn r.conn.tcpConn).map eotOfTpkt =
        r.dts.map (fun d => eotOfTpkt (specCodec.tpkt (specCodec.dt d.payload))) :=
  (Write_eot_by_payload specCodec (connOf 128 []) (List.replicate 126 0) (by decide)
    (by decide) (by rw [List.length_replicate]; decide)).imp fun _ h => ⟨h.1, h.2.2⟩

/-! ## Read from the read buffer -/

theorem copy_short (dst src : List Nat) (h : dst.length ≤ src.length) :
    copy dst src = src.take dst.length := by
  unfold copy
  rw [List.drop_eq_nil_iff.mpr h, List.append_nil]

theorem copy_take_long (dst src : List Nat) (h : src.length ≤ dst.length) :
    (copy dst src).take src.length = src := by
  unfold copy
  rw [List.take_of_length_le h, List.take_left]

theorem Read_from_buf (cdc : Codec) (c : TOSIConn) (rem b : List Nat)
    (h : c.readBuf = some rem) :
    c.Read cdc (some b) = Exec.ret ⟨min b.length rem.length, none, copy b rem,
      { c with readBuf := if b.length < rem.length then some (rem.drop b.length) else none }⟩ := by
  unfold TOSIConn.Read
  simp only [h]
  by_cases hlt : b.length < rem.length
  · rw [if_pos hlt, if_pos hlt, min_eq_left (le_of_lt hlt)]
  · rw [if_neg hlt, if_neg hlt, min_eq_right (Nat.le_of_not_lt hlt)]

theorem copy_take_min (b rem : List Nat) :
    (copy b rem).take (min b.length rem.length) = rem.take b.length := by
  by_cases hlt : b.length ≤ rem.length
  · rw [copy_short b rem hlt, min_eq_left hlt, List.take_take, min_self]
  · have h : rem.length ≤ b.length := by omega
    rw [min_eq_right h, copy_take_long b rem h, List.take_of_length_le h]

theorem readAll_drain (cdc : Codec) :
    ∀ (pre : List (List Nat)) (c : TOSIConn) (rem last : List Nat),
      c.readBuf = some rem → (pre.map List.length).sum < rem.length →
      rem.length ≤ (pre.map List.length).sum + last.length →
      readAll cdc c (pre ++ [last]) = Exec.ret (rem, { c with readBuf := none }) := by
  intro pre
  induction pre with
  | nil =>
    intro c rem last h _ hl
    simp only [List.map_nil, List.sum_nil, Nat.zero_add] at hl
    simp only [List.nil_append, readAll, Read_from_buf cdc c rem last h]
    rw [min_eq_right hl, copy_take_long last rem hl, if_neg (by omega), List.append_nil]
  | cons b pre ih =>
    intro c rem last h hs hl
    simp only [List.map_cons, List.sum_cons] at hs hl
    have hb : b.length < rem.length := by omega
    have hrec := ih { c with readBuf := some (rem.drop b.length) } (rem.drop b.length) last rfl
      (by rw [List.length_drop]; omega) (by rw [List.length_drop]; omega)
    rw [List.cons_append, readAll, Read_from_buf cdc c rem b h]
    simp only [if_pos hb, hrec, copy_take_min, List.take_append_drop]

/-! ## Read of a DT -/

theorem slice_suffix (pre suf : List Nat) (k : Nat) (hk : k ≤ suf.length) :
    slice (pre ++ suf) (pre.length + k) (pre ++ suf).length = some (suf.drop k) := by
  unfold slice
  have : pre.length + k ≤ (pre ++ suf).length ∧ (pre ++ suf).length ≤ (pre ++ suf).length := by
    rw [List.length_append]; omega
  rw [if_pos this, List.take_length, List.drop_append]

theorem handleDT_short_buffer (cdc : Codec) (c : TOSIConn) (b dth P erBuf : List Nat)
    (hv : cdc.validateDt (dth ++ P) = (true, erBuf)) (hd : dth.length = dtMinLen)
    (hM : b.length < P.length) :
    handleDT cdc c b (dth ++ P) = Exec.ret ⟨b.length, none, P.take b.length,
      { c with readBuf := some (P.drop b.length) }⟩ := by
  have s1 : slice (dth ++ P) dtMinLen (dth ++ P).length = some P := by
    have := slice_suffix dth P 0 (Nat.zero_le _)
    rwa [Nat.add_zero, hd, List.drop_zero] at this
  have s2 : slice (dth ++ P) (dtMinLen + b.length) (dth ++ P).length =
      some (P.drop b.length) := by
    have := slice_suffix dth P b.length (le_of_lt hM)
    rwa [hd] at this
  have hlt : (b.length : Int) < ((dth ++ P).length : Int) - (dtMinLen : Int) := by
    rw [List.length_append, hd]; push_cast; omega
  have hun : (((dth ++ P).length : Int) - (dtMinLen : Int) - (b.length : Int)).toNat =
      (P.drop b.length).length := by
    rw [List.length_append, hd, List.length_drop]; push_cast; omega
  unfold handleDT
  simp only [hv, Bool.not_true, Bool.false_eq_true, if_false, s1, s2, if_pos hlt, hun]
  have e1 : copy (make (P.drop b.length).length) (P.drop b.length) = P.drop b.length := by
    rw [copy_short _ _ (by simp [make])]
    simp [make]
  rw [e1, copy_short b P (le_of_lt hM)]

/-- Buffered read when each of the two TCP reads fills its buffer. The read
buffer is empty, the buffers after the two TCP reads are a TPKT header `hdr`
and a TPDU `dth ++ P` that is a valid DT of 3 header bytes and the payload
`P`, and the caller's buffer `b` is shorter than `P`. Then `Read` returns
`len(b)` with no error, delivers `P[0:len(b)]` and keeps exactly `P[len(b):]`
in the read buffer. Every `Read` on a connection whose read buffer holds `rem`
leaves TCP untouched, returns `min(K, len(rem))` bytes, the next of `rem` in
order, and keeps the rest, or clears the buffer when nothing is left. -/
theorem Read_buffered (cdc : Codec) (c : TOSIConn) (b hdr dth P erBuf : List Nat)
    (n1 n2 tlen idx : Nat) (t1 t2 : TCP)
    (hbuf : c.readBuf = none)
    (h1 : c.tcpConn.Read (make tpktHlen) = (hdr, n1, none, t1))
    (hT : cdc.isTPKT hdr = (true, tlen))
    (h2 : t1.Read (make ((tlen + 2 ^ 16 - tpktHlen) % 2 ^ 16)) = (dth ++ P, n2, none, t2))
    (hDT : cdc.isDT (dth ++ P) = (true, idx))
    (hv : cdc.validateDt (dth ++ P) = (true, erBuf))
    (hd : dth.length = dtMinLen)
    (hM : b.length < P.length) :
    ∃ r, c.Read cdc (some b) = Exec.ret r ∧
      r.n = b.length ∧ r.err = none ∧ r.b.take r.n = P.take b.length ∧
      r.conn.readBuf = some (P.drop b.length) ∧ r.conn.tcpConn = t2 ∧
      (∀ (c1 : TOSIConn) (rem b1 : List Nat), c1.readBuf = some rem →
        ∃ r1, c1.Read cdc (some b1) = Exec.ret r1 ∧ r1.err = none ∧
          r1.n = min b1.length rem.length ∧ r1.b.take r1.n = rem.take b1.length ∧
          r1.conn.tcpConn = c1.tcpConn ∧
          r1.conn.readBuf =
            if b1.length < rem.length then some (rem.drop b1.length) else none) ∧
      (∀ b2 : List Nat, P.length - b.length ≤ b2.length →
        ∃ r2, r.conn.Read cdc (some b2) = Exec.ret r2 ∧ r2.err = none ∧
          r2.n = P.length - b.length ∧ r2.b.take r2.n = P.drop b.length ∧
          r2.conn.readBuf = none ∧ r2.conn.tcpConn = t2) ∧
      (∀ (pre : List (List Nat)) (last : List Nat),
        (pre.map List.length).sum < P.length - b.length →
        P.length - b.length ≤ (pre.map List.length).sum + last.length →
        ∃ d c2, readAll cdc r.conn (pre ++ [last]) = Exec.ret (d, c2) ∧
          r.b.take r.n ++ d = P ∧ c2.readBuf = none ∧ c2.tcpConn = t2) := by
  have hread : c.Read cdc (some b) = Exec.ret ⟨b.length, none, P.take b.length,
      { c with tcpConn := t2, readBuf := some (P.drop b.length) }⟩ := by
    unfold TOSIConn.Read
    simp only [hbuf, h1, hT, h2, hDT, Bool.true_and, beq_self_eq_true, if_true, ne_eq,
      not_true_eq_false, if_false]
    rw [handleDT_short_buffer cdc _ b dth P erBuf hv hd hM]
  refine ⟨_, hread, rfl, rfl, ?_, rfl, rfl, ?_, ?_, ?_⟩
  · show (P.take b.length).take b.length = P.take b.length
    rw [List.take_take, min_self]
  · intro c1 rem b1 h
    exact ⟨_, Read_from_buf cdc c1 rem b1 h, rfl, rfl, copy_take_min b1 rem, rfl, rfl⟩
  · intro b2 hb2
    have hlen : (P.drop b.length).length = P.length - b.length := List.length_drop _ _
    refine ⟨_, Read_from_buf cdc _ (P.drop b.length) b2 rfl, rfl, ?_, ?_, ?_, rfl⟩
    · show min b2.length (P.drop b.length).length = P.length - b.length
      rw [hlen, min_eq_right hb2]
    · show (copy b2 (P.drop b.length)).take (min b2.length (P.drop b.length).length) =
        P.drop b.length
      rw [copy_take_min, List.take_of_length_le (by rw [hlen]; exact hb2)]
    · show (if b2.length < (P.drop b.length).length then some _ else none) = none
      rw [if_neg (by rw [hlen]; omega)]
  · intro pre last hs hl
    have hlen : (P.drop b.length).length = P.length - b.length := List.length_drop _ _
    refine ⟨_, _, readAll_drain cdc pre _ (P.drop b.length) last rfl (by rw [hlen]; exact hs)
      (by rw [hlen]; exact hl), ?_, rfl, rfl⟩
    show (P.take b.length).take b.length ++ P.drop b.length = P
    rw [List.take_take, min_self, List.take_append_drop]

/-- The DT of payload `10, 20, 30, 40, 50`, arriving in one TCP segment, read
into a 2-byte buffer: the first read returns 2 bytes and leaves `30, 40, 50`;
reads into buffers of 1 and 4 bytes then deliver the rest. -/
theorem Read_buffered_witness :
    ∃ r, (connOf 2048 [RxEvent.data (specTpkt (specDt [10, 20, 30, 40, 50]))]).Read
        specCodec (some [0, 0]) = Exec.ret r ∧
      r.n = 2 ∧ r.b.take r.n = [10, 20] ∧ r.conn.readBuf = some [30, 40, 50] ∧
      ∃ d c2, readAll specCodec r.conn ([[0]] ++ [[0, 0, 0, 0]]) = Exec.ret (d, c2) ∧
        r.b.take r.n ++ d = [10, 20, 30, 40, 50] ∧ c2.readBuf = none := by
  obtain ⟨r, hr, hn, _, hb, hbuf, _, _, _, hall⟩ := Read_buffered specCodec
    (connOf 2048 [RxEvent.data (specTpkt (specDt [10, 20, 30, 40, 50]))]) [0, 0]
    [3, 0, 0, 12] [2, 0xF0, 0x80] [10, 20, 30, 40, 50] [] 4 8 12 2 _ _
    rfl rfl rfl rfl rfl rfl rfl (by decide)
  obtain ⟨d, c2, hd, hP, hc2, _⟩ := hall [[0]] [0, 0, 0, 0] (by decide) (by decide)
  exact ⟨r, hr, hn, hb, hbuf, d, c2, hd, hP, hc2⟩

/-- C6. What `TOSIConn.Read` does when a valid DT of payload
`P = 10, 20, 30, 40, 50` arrives in two TCP segments while the read buffer is
empty. The count of the second `tcp.Read` is discarded, so the 8-byte TPDU
buffer holds the 5 bytes of the first segment and 3 zero bytes of `make`.
`Read` into a 2-byte buffer returns 2 and delivers `10, 20`, but the read
buffer is `0, 0, 0`, not `P[2:5] = 30, 40, 50`; the second `Read`, into a
4-byte buffer, returns 3 bytes, `0, 0, 0`, and clears the read buffer; the two
reads deliver `10, 20, 0, 0, 0`, not `P`, and `30, 40, 50` are still unread on
TCP. -/
theorem Read_split_DT :
    ∃ r r2, connSplitDT.Read specCodec (some [0, 0]) = Exec.ret r ∧
      r.n = 2 ∧ r.err = none ∧ r.b.take r.n = [10, 20] ∧
      r.conn.readBuf = some [0, 0, 0] ∧ r.conn.readBuf ≠ some [30, 40, 50] ∧
      r.conn.Read specCodec (some [0, 0, 0, 0]) = Exec.ret r2 ∧
      r2.n = 3 ∧ r2.err = none ∧ r2.b.take r2.n = [0, 0, 0] ∧ r2.conn.readBuf = none ∧
      r.b.take r.n ++ r2.b.take r2.n = [10, 20, 0, 0, 0] ∧
      r.b.take r.n ++ r2.b.take r2.n ≠ [10, 20, 30, 40, 50] ∧
      r2.conn.tcpConn.rx = [RxEvent.data [30, 40, 50]] ∧
      readAll specCodec connSplitDT [[0, 0], [0, 0, 0, 0]] =
        Exec.ret ([10, 20, 0, 0, 0], r2.conn) :=
  ⟨_, _, rfl, rfl, rfl, rfl, rfl, by decide, rfl, rfl, rfl, rfl, rfl, rfl, by decide, rfl, rfl⟩

/-! ## Read of something else than a TPKT -/

theorem TCP.Read_frame (t : TCP) (buf : List Nat) :
    (t.Read buf).2.2.2.wlog = t.wlog ∧ (t.Read buf).2.2.2.closed = t.closed ∧
    (t.Read buf).2.2.2.wdl = t.wdl ∧ (t.Read buf).2.2.2.rdl = t.rdl ∧
    ((t.Read buf).2.2.1 = none → t.closed = false) := by
  unfold TCP.Read
  split
  · next h => simp
  · next h =>
    split
    · simpa using h
    · split <;> simp_all

/-- C7. What `TOSIConn.Read` does on a header that is not a TPKT header: with
the read buffer empty and the four bytes read from TCP without error but
rejected by `isTPKT`, `Read` returns `n = 0` and a nil error; it writes
nothing to TCP (no ER is sent) and leaves the TCP connection open. -/
theorem Read_non_tpkt (cdc : Codec) (c : TOSIConn) (b hdr : List Nat) (n1 tlen : Nat)
    (t1 : TCP) (hbuf : c.readBuf = none)
    (h1 : c.tcpConn.Read (make tpktHlen) = (hdr, n1, none, t1))
    (hT : cdc.isTPKT hdr = (false, tlen)) :
    c.Read cdc (some b) = Exec.ret ⟨0, none, b, { c with tcpConn := t1 }⟩ ∧
      t1.wlog = c.tcpConn.wlog ∧ t1.closed = false := by
  have hf := TCP.Read_frame c.tcpConn (make tpktHlen)
  rw [h1] at hf
  obtain ⟨hw, hc, _, _, ho⟩ := hf
  refine ⟨?_, hw, ?_⟩
  · unfold TOSIConn.Read
    simp only [hbuf, h1, hT, Bool.false_and, Bool.false_eq_true, if_false]
  · show t1.closed = false
    rw [show t1.closed = c.tcpConn.closed from hc]
    exact ho rfl

/-- C7, on the header `2, 0, 0, 7` (version 2): `Read` returns `(0, nil)`, the
log of TCP writes stays empty and the connection stays open. -/
theorem Read_non_tpkt_witness :
    (connOf 2048 [RxEvent.data [2, 0, 0, 7]]).Read specCodec (some (make 10)) =
      Exec.ret ⟨0, none, make 10, connOf 2048 []⟩ ∧
    (connOf 2048 []).tcpConn.wlog = [] ∧ (connOf 2048 []).tcpConn.closed = false :=
  Read_non_tpkt specCodec (connOf 2048 [RxEvent.data [2, 0, 0, 7]]) (make 10) [2, 0, 0, 7] 4 0
    (connOf 2048 []).tcpConn rfl rfl rfl

/-! ## The handshake -/

/-- C8. `DialTOSI` and `Accept` on a TCP connection whose first four bytes,
read without error, are `2, 0, 0, 7` (not a TPKT header): both close the TCP
connection and return a nil connection together with a nil error, whatever the
handshake codec, the addresses and the listener. -/
theorem handshake_nil_nil (hs : HsCodec) (laddr : Option TOSIAddr) (raddr : TOSIAddr)
    (l : TOSIListener) :
    (∃ t, DialTOSI specCodec hs (Except.ok tcpVersion2) "tosi" laddr raddr =
        Exec.ret ⟨none, none, some t⟩ ∧ t.closed = true) ∧
    (∃ t, l.Accept specCodec hs (Except.ok tcpVersion2) =
        Exec.ret ⟨none, none, some t⟩ ∧ t.closed = true) := by
  constructor
  · exact ⟨_, rfl, rfl⟩
  · exact ⟨_, rfl, rfl⟩

/-! ## Deadlines around an ER reply -/

theorem TCP.Write_frame (t : TCP) (d : List Nat) :
    (t.Write d).2.2.wdl = t.wdl ∧ (t.Write d).2.2.rdl = t.rdl ∧
    (t.Write d).2.2.closed = t.closed ∧
    ∃ n e, (t.Write d).2.2.wlog = t.wlog ++ [⟨d, t.wdl, n, e⟩] := by
  unfold TCP.Write
  split
  · exact ⟨rfl, rfl, rfl, _, _, rfl⟩
  · split
    · exact ⟨rfl, rfl, rfl, _, _, rfl⟩
    · exact ⟨rfl, rfl, rfl, _, _, rfl⟩
    · exact ⟨rfl, rfl, rfl, _, _, rfl⟩

theorem TCP.SetWriteDeadline_open (t : TCP) (d : Nat) (h : t.closed = false) :
    (t.SetWriteDeadline d).2 = { t with wdl := d } := by
  unfold TCP.SetWriteDeadline
  rw [h]
  rfl

theorem reply_under_read_deadline (t : TCP) (rd wd : Nat) (reply : List Nat)
    (hopen : t.closed = false) :
    ((((t.SetWriteDeadline rd).2.Write reply).2.2).SetWriteDeadline wd).2.wdl = wd ∧
    ((((t.SetWriteDeadline rd).2.Write reply).2.2).SetWriteDeadline wd).2.rdl = t.rdl ∧
    ((((t.SetWriteDeadline rd).2.Write reply).2.2).SetWriteDeadline wd).2.closed = false ∧
    ∃ n e, ((((t.SetWriteDeadline rd).2.Write reply).2.2).SetWriteDeadline wd).2.wlog =
      t.wlog ++ [⟨reply, rd, n, e⟩] := by
  rw [TCP.SetWriteDeadline_open t rd hopen]
  obtain ⟨_, f2, f3, n, e, f4⟩ := TCP.Write_frame { t with wdl := rd } reply
  have hc : (({ t with wdl := rd } : TCP).Write reply).2.2.closed = false := by
    rw [f3]; exact hopen
  rw [TCP.SetWriteDeadline_open _ wd hc]
  exact ⟨rfl, f2, hc, n, e, f4⟩

/-- C10. On an open connection whose TCP write deadline is the recorded
`writeDeadline` (what `SetDeadline` and `SetWriteDeadline` establish and
`SetReadDeadline` keeps): when `handleDT` answers an invalid DT, and when
`handleDTError` answers a TPDU that is neither ER nor DR, the ER reply is the
one TCP write made, under the TCP write deadline `readDeadline`; afterwards
the TCP write deadline is the original one again, and the TCP read deadline
and the fields `readDeadline` and `writeDeadline` are unchanged. -/
theorem ER_reply_keeps_write_deadline (cdc : Codec) (c : TOSIConn)
    (b tpdu1 erBuf tpdu2 bad : List Nat) (idx : Nat)
    (hopen : c.tcpConn.closed = false) (hinv : c.tcpConn.wdl = c.writeDeadline)
    (hv : cdc.validateDt tpdu1 = (false, erBuf))
    (hER : (cdc.isER tpdu2).1 = false) (hDR : (cdc.isDR tpdu2).1 = false)
    (hs : slice tpdu2 0 idx = some bad) :
    (∃ r n e, handleDT cdc c b tpdu1 = Exec.ret r ∧
      r.conn.tcpConn.wlog = c.tcpConn.wlog ++
        [⟨cdc.tpkt (cdc.er c.dstRef erParamVal erBuf), c.readDeadline, n, e⟩] ∧
      r.conn.tcpConn.wdl = c.tcpConn.wdl ∧ r.conn.tcpConn.rdl = c.tcpConn.rdl ∧
      r.conn.readDeadline = c.readDeadline ∧ r.conn.writeDeadline = c.writeDeadline) ∧
    (∃ err c1 n e, handleDTError cdc c tpdu2 idx = Exec.ret (err, c1) ∧
      c1.tcpConn.wlog = c.tcpConn.wlog ++
        [⟨cdc.tpkt (cdc.er c.dstRef erParamVal bad), c.readDeadline, n, e⟩] ∧
      c1.tcpConn.wdl = c.tcpConn.wdl ∧ c1.tcpConn.rdl = c.tcpConn.rdl ∧
      c1.readDeadline = c.readDeadline ∧ c1.writeDeadline = c.writeDeadline) ∧
    (∀ t, (c.SetDeadline t).2.tcpConn.wdl = (c.SetDeadline t).2.writeDeadline ∧
      (c.SetWriteDeadline t).2.tcpConn.wdl = (c.SetWriteDeadline t).2.writeDeadline ∧
      (c.SetReadDeadline t).2.tcpConn.wdl = (c.SetReadDeadline t).2.writeDeadline) := by
  refine ⟨?_, ?_, ?_⟩
  · obtain ⟨g1, g2, _, n, e, g4⟩ := reply_under_read_deadline c.tcpConn c.readDeadline
      c.writeDeadline (cdc.tpkt (cdc.er c.dstRef erParamVal erBuf)) hopen
    have hret : handleDT cdc c b tpdu1 = Exec.ret ⟨0, some GoErr.invalidDT, b,
        { c with tcpConn := ((((c.tcpConn.SetWriteDeadline c.readDeadline).2.Write
          (cdc.tpkt (cdc.er c.dstRef erParamVal erBuf))).2.2).SetWriteDeadline
            c.writeDeadline).2 }⟩ := by
      unfold handleDT
      simp only [hv, Bool.not_false, if_true]
    exact ⟨_, n, e, hret, g4, by rw [hinv]; exact g1, g2, rfl, rfl⟩
  · obtain ⟨g1, g2, _, n, e, g4⟩ := reply_under_read_deadline c.tcpConn c.readDeadline
      c.writeDeadline (cdc.tpkt (cdc.er c.dstRef erParamVal bad)) hopen
    have hret : handleDTError cdc c tpdu2 idx = Exec.ret (some GoErr.invalidTPDU,
        { c with tcpConn := ((((c.tcpConn.SetWriteDeadline c.readDeadline).2.Write
          (cdc.tpkt (cdc.er c.dstRef erParamVal bad))).2.2).SetWriteDeadline
            c.writeDeadline).2 }) := by
      unfold handleDTError
      simp only [hER, hDR, Bool.false_eq_true, if_false, Bool.or_self, hs]
    exact ⟨_, _, n, e, hret, g4, by rw [hinv]; exact g1, g2, rfl, rfl⟩
  · intro t
    refine ⟨?_, ?_, ?_⟩
    · unfold TOSIConn.SetDeadline TCP.SetDeadline
      simp only [hopen, Bool.false_eq_true, if_false]
    · unfold TOSIConn.SetWriteDeadline TCP.SetWriteDeadline
      simp only [hopen, Bool.false_eq_true, if_false]
    · unfold TOSIConn.SetReadDeadline TCP.SetReadDeadline
      simp only [hopen, Bool.false_eq_true, if_false]
      exact hinv

/-- C10, on a connection with read deadline 7 and write deadline 9: the ER
that answers the DT `5, 0xF0, 0x80, 1` (wrong length indicator) is written
under the deadline 7, and the TCP write deadline is 9 afterwards. -/
theorem ER_reply_keeps_write_deadline_witness :
    ∃ r n e, handleDT specCodec connDeadlines (make 10) [5, 0xF0, 0x80, 1] = Exec.ret r ∧
      r.conn.tcpConn.wlog = [⟨specTpkt (specEr [2, 2] 3 [5]), 7, n, e⟩] ∧
      r.conn.tcpConn.wdl = 9 ∧ r.conn.writeDeadline = 9 := by
  obtain ⟨⟨r, n, e, h1, h2, h3, _, _, h4⟩, _, _⟩ := ER_reply_keeps_write_deadline specCodec
    connDeadlines (make 10) [5, 0xF0, 0x80, 1] [5] [2, 0x30, 0] [2, 0x30] 2 rfl rfl rfl rfl rfl rfl
  exact ⟨r, n, e, h1, h2, h3, h4⟩

/-! ## Initial data -/

/-- C9. Initial-data truncation, in the model of the dial with options taken
from the spec: for `K` bytes of initial data and the capacity `C`, the caller
sees no error, the CR carries exactly the first `min(K, C)` bytes, and with
the identity predicate these are the bytes delivered to the peer; at the
capacity 32, a 5-byte payload is delivered whole and of 35 bytes the first 32
are. -/
theorem initial_data_truncation (data : List Nat) (C : Nat) :
    (dialInitialData ⟨data⟩ C id).1 = none ∧
    crUserData ⟨data⟩ C = data.take (min data.length C) ∧
    (crUserData ⟨data⟩ C).length = min data.length C ∧
    (dialInitialData ⟨data⟩ C id).2 = data.take (min data.length C) ∧
    dialInitialData ⟨[0x01, 0xff, 0x66, 0x93, 0x20]⟩ maxInitialData id =
      (none, [0x01, 0xff, 0x66, 0x93, 0x20]) ∧
    (dialInitialData ⟨make 35⟩ maxInitialData id).1 = none ∧
    (dialInitialData ⟨make 35⟩ maxInitialData id).2 = (make 35).take 32 ∧
    ((dialInitialData ⟨make 35⟩ maxInitialData id).2).length = 32 := by
  have h : data.take C = data.take (min data.length C) := by
    rcases Nat.le_total data.length C with h | h
    · rw [min_eq_left h, List.take_of_length_le h, List.take_length]
    · rw [min_eq_right h]
  refine ⟨rfl, h, ?_, h, rfl, rfl, rfl, by decide⟩
  unfold crUserData
  rw [List.length_take, Nat.min_comm]

end Tosi
